import Mathlib

/-!
Verification of the SPIB_EATR rate-estimation code (rate_methods.py).

The numeric float code is modelled in exact real arithmetic (`Real`).
Arrays become `List Real`, boolean index masks become `List Bool`
(paired positionally with the value array, as numpy fancy indexing does),
and library oracles whose outputs the code merely plumbs through
(scipy spline construction, bounded scalar minimization, the stochastic
Kolmogorov-Smirnov p-value) are taken as explicit function parameters,
with their documented contracts as hypotheses where a claim needs them.
Fallible numpy operations are modelled with `Option` / `Except`.
-/

namespace SPIB

open Filter

/-- Models numpy boolean indexing `xs[event]`: keeps the entries of `xs`
whose positionally matching entry of `event` is `true`. -/
def boolFilter (xs : List ℝ) (event : List Bool) : List ℝ :=
  (xs.zip event).filterMap (fun p => if p.2 then some p.1 else none)

/-- Models `event.sum()` for a boolean numpy array: the number of `true` entries. -/
def countTrue (event : List Bool) : ℕ :=
  (event.filter id).length

/-- Models `np.arange(1, M+1)`: the list `[1, 2, ..., M]`. -/
def npArange1 (M : ℕ) : List ℕ :=
  (List.range M).map (· + 1)

/-- Models `np.sort` on a float array: sort into nondecreasing order. -/
noncomputable def npSort (xs : List ℝ) : List ℝ :=
  xs.mergeSort (fun a b => decide (a ≤ b))

/-- Error taxonomy of the spec (section 7): configuration errors are
contradictory option combinations, data errors are degenerate ensembles. -/
inductive RateFailure where
  | configFailure : RateFailure
  | dataFailure : RateFailure
deriving DecidableEq

/-- Embeds `iMetaD_invMRT(times, event, rescale, acc)`.  The numpy code
mutates `times` in place (`times *= acc`) in the rescale branch, so the
embedding passes the array state explicitly: the result is the pair of
the returned value and the final contents of the `times` array.
The `rescale and acc is None` branch prints an error message and returns
`None` instead of a rate; that outcome is modelled as
`Except.error RateFailure.configFailure`. -/
noncomputable def iMetaD_invMRT (times : List ℝ) (event : List Bool)
    (rescale : Bool) (acc : Option (List ℝ)) :
    Except RateFailure ℝ × List ℝ :=
  match rescale, acc with
  | true, some a =>
      let times2 := (times.zip a).map (fun p => p.1 * p.2)
      (Except.ok ((countTrue event : ℝ) / (boolFilter times2 event).sum), times2)
  | true, none => (Except.error RateFailure.configFailure, times)
  | false, _ => (Except.ok ((countTrue event : ℝ) / (boolFilter times event).sum), times)

/-- Embeds the empirical-CDF construction of `iMetaD_FitCDF` (lines 70-76):
`ecdfx = np.sort(times[event])`, `ecdfy = np.arange(1, M+1) / N` with
`M = event.sum()` and `N = len(event)`. -/
noncomputable def iMetaD_FitCDF_ecdf (times : List ℝ) (event : List Bool) :
    List ℝ × List ℝ :=
  let M := countTrue event
  let N := event.length
  (npSort (boolFilter times event),
    (npArange1 M).map (fun i : ℕ => (i : ℝ) / (N : ℝ)))

/-- Embeds the empirical-CDF construction of `KTR_CDF_rate` (lines 183-184):
`counts = np.sort(t[event])`, `ecdf = np.arange(1, event.sum()+1) / len(event)`. -/
noncomputable def KTR_CDF_rate_ecdf (t : List ℝ) (event : List Bool) :
    List ℝ × List ℝ :=
  (npSort (boolFilter t event),
    (npArange1 (countTrue event)).map (fun i : ℕ => (i : ℝ) / (event.length : ℝ)))

/-- Embeds the empirical-CDF construction of `EATR_CDF_rate` (lines 361-362):
`counts = np.sort(t[event])`, `ecdf = np.arange(1, event.sum()+1) / len(event)`. -/
noncomputable def EATR_CDF_rate_ecdf (t : List ℝ) (event : List Bool) :
    List ℝ × List ℝ :=
  (npSort (boolFilter t event),
    (npArange1 (countTrue event)).map (fun i : ℕ => (i : ℝ) / (event.length : ℝ)))

/-- Models `np.arange(0, t, 1.)`: the reals `[0, 1, ..., n-1]` where
`n` is the number of unit steps strictly below `t`, i.e. the ceiling of
`t` (empty when `t <= 0`). -/
noncomputable def tPoints (t : ℝ) : List ℝ :=
  (List.range ⌈t⌉₊).map (fun i : ℕ => (i : ℝ))

/-- Models `np.exp(m + np.log(np.sum(np.exp(xs - m))))` in exact real
arithmetic.  For an empty list numpy yields `log 0 = -inf` and then
`exp(m - inf) = 0`, so the empty case is modelled as `0` explicitly
(Lean would otherwise read `Real.log 0` as `0`). -/
noncomputable def logSumExpAnchor (m : ℝ) (xs : List ℝ) : ℝ :=
  if xs = [] then 0
  else Real.exp (m + Real.log ((xs.map (fun x => Real.exp (x - m))).sum))

/-- Embeds `KTR_calculate_cum_hazard(gamma, spline, logTrick, t)`.
The direct branch is `integrate.quad(lambda x: exp(gamma*spline(x)), 0, t)`,
modelled as the exact interval integral; the logTrick branch is the
discretized log-anchored sum with `dt = 1`.  `maxs` is the output of the
`optimize.minimize_scalar(neg_spline, ...)` oracle (the sampled argmax of
the spline); its value is a parameter because scipy returns some real. -/
noncomputable def KTR_calculate_cum_hazard (gamma : ℝ) (spline : ℝ → ℝ)
    (logTrick : Bool) (maxs : ℝ) (t : ℝ) : ℝ :=
  let dt : ℝ := 1
  if logTrick then
    0.5 * dt * (1 + Real.exp (gamma * spline t) +
      2 * logSumExpAnchor (gamma * maxs)
        (((tPoints t).drop 1).map (fun x => gamma * spline x)))
  else
    ∫ x in (0:ℝ)..t, Real.exp (gamma * spline x)

/-- Embeds `KTR_calculate_log_hazard(gamma, t, spline) = gamma * spline(t)`,
applied elementwise to the array `t`. -/
noncomputable def KTR_calculate_log_hazard (gamma : ℝ) (t : List ℝ)
    (spline : ℝ → ℝ) : List ℝ :=
  t.map (fun x => gamma * spline x)

/-- Embeds `EATR_calculate_cum_hazard(gamma, spline, logTrick, t)`.
Identical in shape to the KTR variant but with the bare spline in the
exponent (the `gamma` parameter is unused in the source body, since the
EATR spline is rebuilt with gamma baked in upstream). -/
noncomputable def EATR_calculate_cum_hazard (gamma : ℝ) (spline : ℝ → ℝ)
    (logTrick : Bool) (maxs : ℝ) (t : ℝ) : ℝ :=
  let dt : ℝ := 1
  if logTrick then
    0.5 * dt * (1 + Real.exp (spline t) +
      2 * logSumExpAnchor maxs (((tPoints t).drop 1).map (fun x => spline x)))
  else
    ∫ x in (0:ℝ)..t, Real.exp (spline x)

/-- Embeds `EATR_calculate_log_hazard(gamma, t, spline) = spline(t)`
(the `gamma` parameter is unused in the source body), elementwise. -/
noncomputable def EATR_calculate_log_hazard (gamma : ℝ) (t : List ℝ)
    (spline : ℝ → ℝ) : List ℝ :=
  t.map (fun x => spline x)

/-- Embeds `KTR_calculate_log_l(gamma, event, t, spline, cores, logTrick,
reg_lambda)`.  The worker pool map preserves input order (spec section 5),
so `p.map(func, t)` is `t.map func`.  `cores` only sizes the pool and does
not affect the value, so it is omitted from the value-level model. -/
noncomputable def KTR_calculate_log_l (gamma : ℝ) (event : List Bool)
    (t : List ℝ) (spline : ℝ → ℝ) (logTrick : Bool) (maxs : ℝ)
    (reg_lambda : ℝ) : ℝ :=
  let cum_hazard := t.map (KTR_calculate_cum_hazard gamma spline logTrick maxs)
  let log_hazard := KTR_calculate_log_hazard gamma t spline
  let mean_t := cum_hazard.sum / (countTrue event : ℝ)
  let log_l := -(countTrue event : ℝ) * Real.log mean_t
      + (boolFilter log_hazard event).sum - (1 / mean_t) * cum_hazard.sum
  let gdiff := 0.5 - gamma;
  -log_l + reg_lambda * gdiff * gdiff

/-- Embeds `EATR_calculate_log_l(gamma, event, t, spline, cores, logTrick,
reg_lambda)` (lines 231-248), same shape as the KTR variant with the EATR
hazard functions. -/
noncomputable def EATR_calculate_log_l (gamma : ℝ) (event : List Bool)
    (t : List ℝ) (spline : ℝ → ℝ) (logTrick : Bool) (maxs : ℝ)
    (reg_lambda : ℝ) : ℝ :=
  let cum_hazard := t.map (EATR_calculate_cum_hazard gamma spline logTrick maxs)
  let log_hazard := EATR_calculate_log_hazard gamma t spline
  let mean_t := cum_hazard.sum / (countTrue event : ℝ)
  let log_l := -(countTrue event : ℝ) * Real.log mean_t
      + (boolFilter log_hazard event).sum - (1 / mean_t) * cum_hazard.sum
  let gdiff := 0.5 - gamma;
  -log_l + reg_lambda * gdiff * gdiff

/-- Embeds `KTR_CDF(t, k0, gamma, spline, cores, logTrick)`:
`1 - np.exp(-k0 * cum_hazard)` applied to the per-element cumulative
hazards of the array `t`. -/
noncomputable def KTR_CDF (t : List ℝ) (k0 gamma : ℝ) (spline : ℝ → ℝ)
    (logTrick : Bool) (maxs : ℝ) : List ℝ :=
  (t.map (KTR_calculate_cum_hazard gamma spline logTrick maxs)).map
    (fun H => 1 - Real.exp (-k0 * H))

/-- Pointwise version of `KTR_CDF` at a single time value (the value the
array version computes at each entry). -/
noncomputable def KTR_CDF_point (t k0 gamma : ℝ) (spline : ℝ → ℝ)
    (logTrick : Bool) (maxs : ℝ) : ℝ :=
  1 - Real.exp (-k0 * KTR_calculate_cum_hazard gamma spline logTrick maxs t)

/-- Embeds `EATR_CDF(t, k0, gamma, spline, cores, logTrick)`:
`1 - np.exp(-cum_hazard * k0)` elementwise. -/
noncomputable def EATR_CDF (t : List ℝ) (k0 gamma : ℝ) (spline : ℝ → ℝ)
    (logTrick : Bool) (maxs : ℝ) : List ℝ :=
  (t.map (EATR_calculate_cum_hazard gamma spline logTrick maxs)).map
    (fun H => 1 - Real.exp (-H * k0))

/-- Pointwise version of `EATR_CDF` at a single time value. -/
noncomputable def EATR_CDF_point (t k0 gamma : ℝ) (spline : ℝ → ℝ)
    (logTrick : Bool) (maxs : ℝ) : ℝ :=
  1 - Real.exp (-(EATR_calculate_cum_hazard gamma spline logTrick maxs t) * k0)

/-- Embeds `KTR_leastsq_cost(params, t, ecdfy, spline, cores, logTrick,
reg_lambda, kIMD)` (lines 120-125).  The source body calls
`KTR_CDF(..., cores=4, logTrick=False)` with both keyword arguments
hardcoded, ignoring the `cores` and `logTrick` parameters it received;
the embedding keeps those unused parameters. -/
noncomputable def KTR_leastsq_cost (params : ℝ × ℝ) (t ecdfy : List ℝ)
    (spline : ℝ → ℝ) (cores : ℕ) (logTrick : Bool) (maxs : ℝ)
    (reg_lambda kIMD : ℝ) : ℝ :=
  let f := KTR_CDF t params.1 params.2 spline false maxs
  let sse := ((ecdfy.zip f).map (fun p => (p.1 - p.2) ^ 2)).sum
  let gdiff := 0.5 - params.2
  let kdiff := 10 * kIMD - params.1
  sse + reg_lambda * (kdiff * kdiff + gdiff * gdiff)

/-- Embeds `EATR_leastsq_cost(k0, gamma, t, ecdfy, spline, cores, logTrick,
reg_lambda, kIMD)` (lines 292-297).  The source body calls
`EATR_CDF(..., cores=4, logTrick=False)` with both keyword arguments
hardcoded, ignoring the `cores` and `logTrick` parameters it received. -/
noncomputable def EATR_leastsq_cost (k0 gamma : ℝ) (t ecdfy : List ℝ)
    (spline : ℝ → ℝ) (cores : ℕ) (logTrick : Bool) (maxs : ℝ)
    (reg_lambda kIMD : ℝ) : ℝ :=
  let f := EATR_CDF t k0 gamma spline false maxs
  let sse := ((ecdfy.zip f).map (fun p => (p.1 - p.2) ^ 2)).sum
  let gdiff := 0.5 - gamma
  let kdiff := 10 * kIMD - k0
  sse + reg_lambda * (kdiff * kdiff + gdiff * gdiff)

/-- The composite trapezoidal rule with unit step over `[0, n]`:
the sum of `0.5 * (f i + f (i+1))` over the unit subintervals. -/
noncomputable def trapezoidUnit (f : ℝ → ℝ) (n : ℕ) : ℝ :=
  ((List.range n).map (fun i : ℕ => 0.5 * (f i + f (i + 1)))).sum

/-- The sum over the interior grid points `[1, ..., n-1]` of `exp ∘ g`. -/
noncomputable def interiorExpSum (g : ℝ → ℝ) (n : ℕ) : ℝ :=
  (((List.range n).drop 1).map (fun i : ℕ => Real.exp (g i))).sum

/-- Embeds `KTR_MLE_rate(vmb_average, t, event, gamma_bounds, cores,
logTrick, reg_lambda, do_bopt)` on its default non-Bayesian path
(`do_bopt=False`; the Bayesian-optimization branch depends on a library
that is commented out in the source and is not modelled).  Two scipy
oracles are passed explicitly: `splineOracle` models
`interpolate.UnivariateSpline(unique_T, unique_V, s=0, ext=3)` applied to
the two columns of `vmb_average`, and `minimizeScalar` models
`optimize.minimize_scalar(f, bounds=gamma_bounds, method='bounded').x`,
whose documented contract is that the returned point lies within the
bounds.  `maxs` is the spline-argmax oracle value used by the logTrick
integrator. -/
noncomputable def KTR_MLE_rate (splineOracle : List (ℝ × ℝ) → ℝ → ℝ)
    (minimizeScalar : (ℝ → ℝ) → ℝ × ℝ → ℝ) (maxs : ℝ)
    (vmb_average : List (ℝ × ℝ)) (t : List ℝ) (event : List Bool)
    (gamma_bounds : ℝ × ℝ) (logTrick : Bool) (reg_lambda : ℝ) :
    (ℝ × ℝ) × (ℝ → ℝ) :=
  let spline := splineOracle vmb_average
  let gamma := minimizeScalar
      (fun g => KTR_calculate_log_l g event t spline logTrick maxs reg_lambda)
      gamma_bounds
  let cum_hazard := t.map (KTR_calculate_cum_hazard gamma spline logTrick maxs)
  let mean_t := cum_hazard.sum / (countTrue event : ℝ)
  ((1 / mean_t, gamma), spline)

/-- Embeds `EATR_MLE_rate(v_data, t, event, gamma_bounds, beta, ix_col,
cores, logTrick, reg_lambda, do_bopt)` on its default non-Bayesian path.
`avgAccOracle` models `EATR_calculate_avg_acc(gamma, v_data, beta, ix_col,
logTrick)`, the gamma-dependent spline reconstruction (a scipy spline
oracle, rebuilt for each candidate gamma); `minimizeScalar` as in
`KTR_MLE_rate`. -/
noncomputable def EATR_MLE_rate (avgAccOracle : ℝ → ℝ → ℝ)
    (minimizeScalar : (ℝ → ℝ) → ℝ × ℝ → ℝ) (maxs : ℝ)
    (t : List ℝ) (event : List Bool) (gamma_bounds : ℝ × ℝ)
    (logTrick : Bool) (reg_lambda : ℝ) : (ℝ × ℝ) × (ℝ → ℝ) :=
  let log_l_aa := fun g =>
    EATR_calculate_log_l g event t (avgAccOracle g) logTrick maxs reg_lambda
  let gamma := minimizeScalar log_l_aa gamma_bounds
  let spline := avgAccOracle gamma
  let cum_hazard := t.map (EATR_calculate_cum_hazard gamma spline logTrick maxs)
  let mean_t := cum_hazard.sum / (countTrue event : ℝ)
  ((1 / mean_t, gamma), spline)

/-- Embeds the body of the KS consistency-bracket loops of `rates`
(e.g. lines 558-565): starting from the point estimate, the loop steps the
parameter with `next`, recomputes the KS p-value (a stochastic scipy test,
modelled by the oracle `pval` as a function of the stepped parameter),
records the stepped value while `p > 0.05`, and stops at the first
failure.  `fuel` bounds the recursion depth (the Python `while` loop has
no such bound; theorems assume the stop condition is reached within
`fuel`). -/
noncomputable def ksSearch (pval next : ℝ → ℝ) :
    ℕ → ℝ → Option ℝ → Option ℝ
  | 0, _, good_fit => good_fit
  | fuel + 1, cur, good_fit =>
      let c := next cur
      if 0.05 < pval c then ksSearch pval next fuel c (some c) else good_fit

/-- The reported KS bound: the recorded `good_fit` if any step passed,
otherwise the point estimate `k` itself (`results[...] = good_fit if
good_fit is not None else k`). -/
noncomputable def ksBracketResult (pval next : ℝ → ℝ) (fuel : ℕ) (k : ℝ) : ℝ :=
  (ksSearch pval next fuel k none).getD k

/-- The multiplicative down-step `k_i *= 10**(-0.02)` of the k-bracket. -/
noncomputable def stepDownK (k : ℝ) : ℝ := k * (10 : ℝ) ^ (-0.02 : ℝ)

/-- The multiplicative up-step `k_i *= 10**(0.02)` of the k-bracket. -/
noncomputable def stepUpK (k : ℝ) : ℝ := k * (10 : ℝ) ^ (0.02 : ℝ)

/-- The additive down-step `gamma_i -= 0.02` of the gamma-bracket. -/
noncomputable def stepDownG (g : ℝ) : ℝ := g - 0.02

/-- The additive up-step `gamma_i += 0.02` of the gamma-bracket. -/
noncomputable def stepUpG (g : ℝ) : ℝ := g + 0.02

/-- Models padding a ragged replica column with NaN up to the common row
count (`np.hstack((col, fill_diff))` where `fill_diff` is NaN-filled);
NaN entries are represented as `none`. -/
def padWithNone (col : List ℝ) (maxrow : ℕ) : List (Option ℝ) :=
  col.map some ++ List.replicate (maxrow - col.length) none

/-- Models the `ix_col` accumulation loop shared by `avg_max_bias` and
`inst_bias`: each replica whose time-column length equals the maximum row
count overwrites `ix_col`, so the final value is the last such column, and
`None` if no replica reaches the maximum length. -/
def lastFullTimeCol (data : List (List (ℝ × ℝ))) (maxrow : ℕ) : Option (List ℝ) :=
  ((data.map (fun d => d.map Prod.fst)).filter (fun c => c.length = maxrow)).getLast?

/-- Models `np.ma.average(masked.T, axis=1)`: for each row index, the mean
of the entries that are present (non-NaN) at that index across columns.
(The fully-masked case divides zero by zero, which exact real arithmetic
reads as zero.) -/
noncomputable def maskedColumnAverage (cols : List (List (Option ℝ)))
    (maxrow : ℕ) : List ℝ :=
  (List.range maxrow).map (fun j =>
    let vals := cols.filterMap (fun c => (c.get? j).join)
    vals.sum / (vals.length : ℝ))

/-- Embeds `avg_max_bias(maxbias, data, colvars_count, colvars_maxrow_count,
beta, bias_shift)`.  A replica is a list of `(time, bias)` rows; `maxbias`
carries the per-replica running-maximum bias columns.  The numpy code
raises on two paths, both modelled as `none`: assigning a column longer
than `colvars_maxrow_count` into the preallocated matrix raises a shape
error, and `np.vstack((ix_col, vmb_average))` with `ix_col = None` (no
replica reached the maximum length) raises a ValueError, the failure of
claim C7.  Otherwise the result pairs the time axis with the masked
column averages scaled by `(avg + bias_shift) * beta`. -/
noncomputable def avg_max_bias (maxbias : List (List ℝ))
    (data : List (List (ℝ × ℝ))) (colvars_count maxrow : ℕ)
    (beta bias_shift : ℝ) : Option (List (ℝ × ℝ)) :=
  let maxbias2 := maxbias.take colvars_count
  let data2 := data.take colvars_count
  if maxbias2.any (fun c => decide (maxrow < c.length)) then none
  else
    match lastFullTimeCol data2 maxrow with
    | none => none
    | some ix_col =>
        let vmb_data := maxbias2.map (fun c => padWithNone c maxrow)
        let vmb_average := maskedColumnAverage vmb_data maxrow
        some ((ix_col.zip vmb_average).map
          (fun p => (p.1, (p.2 + bias_shift) * beta)))

/-- Embeds `inst_bias(data, colvars_count, colvars_maxrow_count, beta,
biascol, bias_shift)`.  The bias column of each replica is shifted by
`bias_shift` and padded with NaN; the time axis `ix_col` is the last full
time column, or `None` when no replica reaches the maximum length — the
function returns normally in that case (no error is raised; the `beta`
parameter is likewise unused in the source body).  As in `avg_max_bias`,
an over-long replica raises a numpy shape error, modelled as `none`. -/
noncomputable def inst_bias (data : List (List (ℝ × ℝ)))
    (colvars_count maxrow : ℕ) (beta bias_shift : ℝ) :
    Option (List (List (Option ℝ)) × Option (List ℝ)) :=
  let data2 := data.take colvars_count
  if data2.any (fun d => decide (maxrow < d.length)) then none
  else
    some (data2.map (fun d =>
        padWithNone (d.map (fun r => r.2 + bias_shift)) maxrow),
      lastFullTimeCol data2 maxrow)

/-! ### Supporting lemmas -/

/-- In exact real arithmetic the max-anchored log-sum-exp is just the sum
of the exponentials, for any anchor value. -/
theorem logSumExpAnchor_eq_sum (m : ℝ) (xs : List ℝ) :
    logSumExpAnchor m xs = (xs.map Real.exp).sum := by
  unfold logSumExpAnchor
  rcases xs with _ | ⟨a, tl⟩
  · simp
  · rw [if_neg (by simp)]
    have hge : (0:ℝ) ≤ ((a :: tl).map (fun x => Real.exp (x - m))).sum := by
      refine List.sum_nonneg (fun y hy => ?_)
      simp only [List.mem_map] at hy
      obtain ⟨z, _, rfl⟩ := hy
      exact (Real.exp_pos _).le
    have hpos : 0 < ((a :: tl).map (fun x => Real.exp (x - m))).sum := by
      simp only [List.map_cons, List.sum_cons]
      have h1 : (0:ℝ) ≤ (tl.map (fun x => Real.exp (x - m))).sum := by
        refine List.sum_nonneg (fun y hy => ?_)
        simp only [List.mem_map] at hy
        obtain ⟨z, _, rfl⟩ := hy
        exact (Real.exp_pos _).le
      have := Real.exp_pos (a - m)
      linarith
    rw [Real.exp_add, Real.exp_log hpos, ← List.sum_map_mul_left]
    refine congrArg List.sum (List.map_congr_left (fun x _ => ?_))
    rw [← Real.exp_add]
    ring_nf

theorem tPoints_natCast (n : ℕ) :
    tPoints (n : ℝ) = (List.range n).map (fun i : ℕ => (i : ℝ)) := by
  unfold tPoints
  rw [Nat.ceil_natCast]

/-- The logTrick branch at an integer time, rewritten through the exact
log-sum-exp identity as an explicit interior sum. -/
theorem KTR_cum_hazard_logTrick_natCast (gamma : ℝ) (spline : ℝ → ℝ)
    (maxs : ℝ) (n : ℕ) :
    KTR_calculate_cum_hazard gamma spline true maxs (n : ℝ) =
      0.5 * 1 * (1 + Real.exp (gamma * spline (n : ℝ)) +
        2 * interiorExpSum (fun x => gamma * spline x) n) := by
  unfold KTR_calculate_cum_hazard
  rw [if_pos rfl, tPoints_natCast, logSumExpAnchor_eq_sum]
  unfold interiorExpSum
  rw [← List.map_drop, List.map_map, List.map_map]
  rfl

theorem EATR_cum_hazard_logTrick_natCast (gamma : ℝ) (spline : ℝ → ℝ)
    (maxs : ℝ) (n : ℕ) :
    EATR_calculate_cum_hazard gamma spline true maxs (n : ℝ) =
      0.5 * 1 * (1 + Real.exp (spline (n : ℝ)) +
        2 * interiorExpSum (fun x => spline x) n) := by
  unfold EATR_calculate_cum_hazard
  rw [if_pos rfl, tPoints_natCast, logSumExpAnchor_eq_sum]
  unfold interiorExpSum
  rw [← List.map_drop, List.map_map, List.map_map]
  rfl

theorem interiorExpSum_succ (g : ℝ → ℝ) (n : ℕ) (hn : 1 ≤ n) :
    interiorExpSum g (n + 1) = interiorExpSum g n + Real.exp (g n) := by
  unfold interiorExpSum
  rw [List.range_succ, List.drop_append_of_le_length (by simpa using hn),
    List.map_append, List.sum_append]
  simp

theorem trapezoidUnit_succ (f : ℝ → ℝ) (n : ℕ) :
    trapezoidUnit f (n + 1) = trapezoidUnit f n + 0.5 * (f n + f (n + 1)) := by
  unfold trapezoidUnit
  rw [List.range_succ, List.map_append, List.sum_append]
  simp

/-- The exact value of the logTrick discretization at integer times:
the unit-step trapezoid rule, except that the left endpoint contribution
`0.5 * f 0` is replaced by the constant `0.5`. -/
theorem logTrick_interior_formula (g : ℝ → ℝ) (n : ℕ) (hn : 1 ≤ n) :
    0.5 * 1 * (1 + Real.exp (g n) + 2 * interiorExpSum g n) =
      trapezoidUnit (fun x => Real.exp (g x)) n +
        0.5 * (1 - Real.exp (g 0)) := by
  induction n with
  | zero => omega
  | succ k ih =>
    rcases Nat.eq_or_lt_of_le hn with h1 | h1
    · have hk : k = 0 := by omega
      subst hk
      unfold interiorExpSum trapezoidUnit
      simp only [List.range_succ, List.range_zero, List.nil_append, List.drop_succ_cons,
        List.drop_nil, List.map_nil, List.sum_nil, List.map_cons, List.sum_cons]
      push_cast
      ring
    · have hk : 1 ≤ k := by omega
      rw [interiorExpSum_succ g k hk, trapezoidUnit_succ]
      have := ih hk
      push_cast at this ⊢
      linarith

/-- The EATR cumulative hazard coincides with the KTR one at `gamma = 1`
(the EATR integrand is the bare exponentiated spline). -/
theorem EATR_cum_hazard_eq_KTR_one (gamma : ℝ) (spline : ℝ → ℝ)
    (logTrick : Bool) (maxs t : ℝ) :
    EATR_calculate_cum_hazard gamma spline logTrick maxs t =
      KTR_calculate_cum_hazard 1 spline logTrick maxs t := by
  unfold EATR_calculate_cum_hazard KTR_calculate_cum_hazard
  simp only [one_mul]

theorem EATR_CDF_point_eq_KTR_one (t k0 gamma : ℝ) (spline : ℝ → ℝ)
    (logTrick : Bool) (maxs : ℝ) :
    EATR_CDF_point t k0 gamma spline logTrick maxs =
      KTR_CDF_point t k0 1 spline logTrick maxs := by
  unfold EATR_CDF_point KTR_CDF_point
  rw [EATR_cum_hazard_eq_KTR_one]
  ring_nf

theorem cum_hazard_direct_zero (gamma : ℝ) (spline : ℝ → ℝ) (maxs : ℝ) :
    KTR_calculate_cum_hazard gamma spline false maxs 0 = 0 := by
  show (∫ x in (0:ℝ)..0, Real.exp (gamma * spline x)) = 0
  exact intervalIntegral.integral_same

theorem cum_hazard_direct_mono (gamma : ℝ) (spline : ℝ → ℝ) (maxs : ℝ)
    (hc : Continuous spline) :
    Monotone (KTR_calculate_cum_hazard gamma spline false maxs) := by
  intro a b hab
  have hcont : Continuous fun x => Real.exp (gamma * spline x) :=
    Real.continuous_exp.comp (continuous_const.mul hc)
  have hint : ∀ u v : ℝ, IntervalIntegrable (fun x => Real.exp (gamma * spline x))
      MeasureTheory.volume u v := fun u v => hcont.intervalIntegrable u v
  show (∫ x in (0:ℝ)..a, Real.exp (gamma * spline x)) ≤
    ∫ x in (0:ℝ)..b, Real.exp (gamma * spline x)
  have hsplit := intervalIntegral.integral_add_adjacent_intervals (hint 0 a) (hint a b)
  have hpos : 0 ≤ ∫ x in a..b, Real.exp (gamma * spline x) :=
    intervalIntegral.integral_nonneg hab (fun u _ => (Real.exp_pos _).le)
  linarith

theorem cum_hazard_direct_lower_bound (gamma : ℝ) (spline : ℝ → ℝ) (maxs : ℝ)
    (hc : Continuous spline) (B : ℝ) (hB : ∀ x, |spline x| ≤ B)
    (t : ℝ) (ht : 0 ≤ t) :
    Real.exp (-(|gamma| * B)) * t ≤
      KTR_calculate_cum_hazard gamma spline false maxs t := by
  have hle : ∀ x, Real.exp (-(|gamma| * B)) ≤ Real.exp (gamma * spline x) := by
    intro x
    apply Real.exp_le_exp.mpr
    have h1 : |gamma * spline x| ≤ |gamma| * B := by
      rw [abs_mul]
      exact mul_le_mul_of_nonneg_left (hB x) (abs_nonneg gamma)
    have h2 := neg_abs_le (gamma * spline x)
    linarith
  have hcont : Continuous fun x => Real.exp (gamma * spline x) :=
    Real.continuous_exp.comp (continuous_const.mul hc)
  have h : (∫ _x in (0:ℝ)..t, Real.exp (-(|gamma| * B))) ≤
      ∫ x in (0:ℝ)..t, Real.exp (gamma * spline x) :=
    intervalIntegral.integral_mono_on ht intervalIntegrable_const
      (hcont.intervalIntegrable 0 t) (fun x _ => hle x)
  rw [intervalIntegral.integral_const, smul_eq_mul] at h
  show Real.exp (-(|gamma| * B)) * t ≤ ∫ x in (0:ℝ)..t, Real.exp (gamma * spline x)
  calc Real.exp (-(|gamma| * B)) * t
      = (t - 0) * Real.exp (-(|gamma| * B)) := by ring
    _ ≤ _ := h

theorem cum_hazard_direct_tendsto (gamma : ℝ) (spline : ℝ → ℝ) (maxs : ℝ)
    (hc : Continuous spline) (B : ℝ) (hB : ∀ x, |spline x| ≤ B) :
    Tendsto (KTR_calculate_cum_hazard gamma spline false maxs) atTop atTop := by
  refine tendsto_atTop_mono' atTop ?_
    (Tendsto.const_mul_atTop (Real.exp_pos (-(|gamma| * B))) tendsto_id)
  filter_upwards [eventually_ge_atTop (0:ℝ)] with t ht
  exact cum_hazard_direct_lower_bound gamma spline maxs hc B hB t ht

theorem KTR_CDF_point_mono (k0 gamma : ℝ) (spline : ℝ → ℝ) (maxs : ℝ)
    (hk : 0 ≤ k0) (hc : Continuous spline) :
    Monotone (fun t => KTR_CDF_point t k0 gamma spline false maxs) := by
  intro a b hab
  have hH := cum_hazard_direct_mono gamma spline maxs hc hab
  have h1 : k0 * KTR_calculate_cum_hazard gamma spline false maxs a ≤
      k0 * KTR_calculate_cum_hazard gamma spline false maxs b :=
    mul_le_mul_of_nonneg_left hH hk
  have h2 : Real.exp (-k0 * KTR_calculate_cum_hazard gamma spline false maxs b) ≤
      Real.exp (-k0 * KTR_calculate_cum_hazard gamma spline false maxs a) := by
    apply Real.exp_le_exp.mpr
    rw [neg_mul, neg_mul]
    linarith
  unfold KTR_CDF_point
  dsimp only
  linarith

theorem KTR_CDF_point_tendsto (k0 gamma : ℝ) (spline : ℝ → ℝ) (maxs : ℝ)
    (hk : 0 < k0) (hc : Continuous spline) (B : ℝ) (hB : ∀ x, |spline x| ≤ B) :
    Tendsto (fun t => KTR_CDF_point t k0 gamma spline false maxs) atTop (nhds 1) := by
  have h1 : Tendsto (fun t => k0 * KTR_calculate_cum_hazard gamma spline false maxs t)
      atTop atTop :=
    Tendsto.const_mul_atTop hk (cum_hazard_direct_tendsto gamma spline maxs hc B hB)
  have h2 : Tendsto (fun t =>
      Real.exp (-(k0 * KTR_calculate_cum_hazard gamma spline false maxs t)))
      atTop (nhds 0) :=
    Real.tendsto_exp_atBot.comp (tendsto_neg_atTop_atBot.comp h1)
  have h3 := h2.const_sub 1
  simp only [sub_zero] at h3
  unfold KTR_CDF_point
  simpa only [neg_mul] using h3

/-- The logTrick cumulative hazard at `t = 0`: the interior grid is empty,
so the value is `0.5 * (1 + exp (gamma * spline 0))`, which is positive. -/
theorem cum_hazard_logTrick_zero (gamma : ℝ) (spline : ℝ → ℝ) (maxs : ℝ) :
    KTR_calculate_cum_hazard gamma spline true maxs 0 =
      0.5 * (1 + Real.exp (gamma * spline 0)) := by
  unfold KTR_calculate_cum_hazard tPoints logSumExpAnchor
  norm_num

/-! ### Theorems -/

/-- C1: for every gamma, spline, time vector and event vector with at least
one transition, `KTR_calculate_log_l` (and likewise `EATR_calculate_log_l`)
returns `-[ -M*log(mean_t) + (sum of per-replica log-hazard over transitioned
replicas) - (1/mean_t)*(sum of per-replica cumulative hazards) ]
+ reg_lambda*(0.5-gamma)^2`, with `mean_t = (sum of cumulative hazards)/M`
and `M` the number of transitioned replicas. -/
theorem calculate_log_l_formula (gamma : ℝ) (event : List Bool) (t : List ℝ)
    (spline : ℝ → ℝ) (logTrick : Bool) (maxs reg_lambda : ℝ)
    (hM : 1 ≤ countTrue event) :
    KTR_calculate_log_l gamma event t spline logTrick maxs reg_lambda =
      -(-(countTrue event : ℝ) *
          Real.log ((t.map (KTR_calculate_cum_hazard gamma spline logTrick maxs)).sum
            / (countTrue event : ℝ))
        + (boolFilter (t.map (fun x => gamma * spline x)) event).sum
        - (1 / ((t.map (KTR_calculate_cum_hazard gamma spline logTrick maxs)).sum
            / (countTrue event : ℝ)))
          * (t.map (KTR_calculate_cum_hazard gamma spline logTrick maxs)).sum)
      + reg_lambda * (0.5 - gamma) ^ 2 ∧
    EATR_calculate_log_l gamma event t spline logTrick maxs reg_lambda =
      -(-(countTrue event : ℝ) *
          Real.log ((t.map (EATR_calculate_cum_hazard gamma spline logTrick maxs)).sum
            / (countTrue event : ℝ))
        + (boolFilter (t.map (fun x => spline x)) event).sum
        - (1 / ((t.map (EATR_calculate_cum_hazard gamma spline logTrick maxs)).sum
            / (countTrue event : ℝ)))
          * (t.map (EATR_calculate_cum_hazard gamma spline logTrick maxs)).sum)
      + reg_lambda * (0.5 - gamma) ^ 2 := by
  constructor
  · simp only [KTR_calculate_log_l, KTR_calculate_log_hazard]
    ring
  · simp only [EATR_calculate_log_l, EATR_calculate_log_hazard]
    ring

/-- Witness for C1 at a concrete transitioned ensemble. -/
theorem calculate_log_l_formula_witness :
    1 ≤ countTrue [true] ∧
    (KTR_calculate_log_l 0 [true] [] (fun _ => 0) false 0 0 =
      -(-(countTrue [true] : ℝ) *
          Real.log ((([] : List ℝ).map (KTR_calculate_cum_hazard 0 (fun _ => 0) false 0)).sum
            / (countTrue [true] : ℝ))
        + (boolFilter (([] : List ℝ).map (fun x => 0 * (fun _ => (0:ℝ)) x)) [true]).sum
        - (1 / ((([] : List ℝ).map (KTR_calculate_cum_hazard 0 (fun _ => 0) false 0)).sum
            / (countTrue [true] : ℝ)))
          * (([] : List ℝ).map (KTR_calculate_cum_hazard 0 (fun _ => 0) false 0)).sum)
      + 0 * (0.5 - 0) ^ 2 ∧
    EATR_calculate_log_l 0 [true] [] (fun _ => 0) false 0 0 =
      -(-(countTrue [true] : ℝ) *
          Real.log ((([] : List ℝ).map (EATR_calculate_cum_hazard 0 (fun _ => 0) false 0)).sum
            / (countTrue [true] : ℝ))
        + (boolFilter (([] : List ℝ).map (fun x => (fun _ => (0:ℝ)) x)) [true]).sum
        - (1 / ((([] : List ℝ).map (EATR_calculate_cum_hazard 0 (fun _ => 0) false 0)).sum
            / (countTrue [true] : ℝ)))
          * (([] : List ℝ).map (EATR_calculate_cum_hazard 0 (fun _ => 0) false 0)).sum)
      + 0 * (0.5 - 0) ^ 2) :=
  ⟨by decide, calculate_log_l_formula 0 [true] [] (fun _ => 0) false 0 0 (by decide)⟩

/-- C3: in every CDF estimator the empirical CDF is the sorted transition
times of the transitioned replicas with ordinates `i/N` for `i = 1..M`,
where `M` counts transitioned replicas and `N` is the total ensemble size;
all three constructions coincide. -/
theorem ecdf_construction (times : List ℝ) (event : List Bool) :
    KTR_CDF_rate_ecdf times event = iMetaD_FitCDF_ecdf times event ∧
    EATR_CDF_rate_ecdf times event = iMetaD_FitCDF_ecdf times event ∧
    (iMetaD_FitCDF_ecdf times event).2 =
      (List.range (countTrue event)).map
        (fun i : ℕ => ((i : ℝ) + 1) / (event.length : ℝ)) ∧
    (iMetaD_FitCDF_ecdf times event).2.length = countTrue event ∧
    (iMetaD_FitCDF_ecdf times event).1.Sorted (· ≤ ·) ∧
    (iMetaD_FitCDF_ecdf times event).1.Perm (boolFilter times event) := by
  refine ⟨rfl, rfl, ?_, ?_, ?_, ?_⟩
  · show ((List.range (countTrue event)).map (fun i : ℕ => i + 1)).map
        (fun i : ℕ => (i : ℝ) / (event.length : ℝ)) = _
    rw [List.map_map]
    refine List.map_congr_left (fun i _ => ?_)
    show ((i + 1 : ℕ) : ℝ) / (event.length : ℝ) = ((i : ℝ) + 1) / (event.length : ℝ)
    push_cast
    rfl
  · simp only [iMetaD_FitCDF_ecdf, npArange1, List.length_map, List.length_range]
  · have h := @List.sorted_mergeSort ℝ (fun a b : ℝ => decide (a ≤ b))
      (fun a b c hab hbc => by
        simp only [decide_eq_true_eq] at *
        exact le_trans hab hbc)
      (fun a b => by
        simp only [Bool.or_eq_true, decide_eq_true_eq]
        exact le_total a b)
      (boolFilter times event)
    exact List.Pairwise.imp (fun h => by simpa using h) h
  · exact List.mergeSort_perm (boolFilter times event) _

/-- C8: calling the iMetaD inverse-mean-residence-time estimator with
`rescale=True` and `acc=None` aborts with a configuration error (the source
prints the error message and returns `None` instead of a rate estimate). -/
theorem iMetaD_invMRT_rescale_without_acc (times : List ℝ) (event : List Bool) :
    (iMetaD_invMRT times event true none).1 =
      Except.error RateFailure.configFailure := rfl

/-- C9 counterexample: with `rescale=True` and acceleration factors
supplied, `times *= acc` mutates the times array in place, so the claim
that `iMetaD_invMRT` leaves `times` unchanged for every combination of
`rescale` and `acc` is false. -/
theorem iMetaD_invMRT_mutates_on_rescale :
    (iMetaD_invMRT [2] [true] true (some [3])).2 ≠ [2] := by
  simp only [iMetaD_invMRT, List.zip_cons_cons, List.zip_nil_right, List.map_cons,
    List.map_nil, ne_eq, List.cons.injEq, and_true]
  norm_num

/-- C9 amended: `iMetaD_invMRT` leaves its `times` argument unchanged in
every case except `rescale=True` with acceleration factors supplied, where
the in-place `times *= acc` rescaling overwrites it (a path no caller in
this repository exercises). -/
theorem iMetaD_invMRT_no_mutation (times : List ℝ) (event : List Bool)
    (rescale : Bool) (acc : Option (List ℝ))
    (h : rescale = false ∨ acc = none) :
    (iMetaD_invMRT times event rescale acc).2 = times := by
  rcases h with h | h
  · subst h
    cases acc <;> rfl
  · subst h
    cases rescale <;> rfl

/-- Witness for the amended C9 at a concrete call. -/
theorem iMetaD_invMRT_no_mutation_witness :
    (iMetaD_invMRT [1] [true] false (some [2])).2 = [1] :=
  iMetaD_invMRT_no_mutation [1] [true] false (some [2]) (Or.inl rfl)

/-- C10: the regularized CDF-fitting costs never use the log-trick
integrator: `KTR_leastsq_cost` and `EATR_leastsq_cost` return the same
value for any `logTrick` flag and any `cores` value, because both evaluate
the model CDF with `logTrick=False` (and `cores=4`) hardcoded. -/
theorem leastsq_cost_ignores_logTrick (params : ℝ × ℝ) (k0 gamma : ℝ)
    (t ecdfy : List ℝ) (spline : ℝ → ℝ) (cores1 cores2 : ℕ)
    (lt1 lt2 : Bool) (maxs reg_lambda kIMD : ℝ) :
    KTR_leastsq_cost params t ecdfy spline cores1 lt1 maxs reg_lambda kIMD =
      KTR_leastsq_cost params t ecdfy spline cores2 lt2 maxs reg_lambda kIMD ∧
    EATR_leastsq_cost k0 gamma t ecdfy spline cores1 lt1 maxs reg_lambda kIMD =
      EATR_leastsq_cost k0 gamma t ecdfy spline cores2 lt2 maxs reg_lambda kIMD :=
  ⟨rfl, rfl⟩

/-- C2 counterexample: under the logTrick strategy the model CDF does not
vanish at `t = 0`: with `k0 = 1`, `gamma = 0` and the zero spline the
discretized cumulative hazard at `0` is `0.5 * (1 + exp 0) = 1`, so the
CDF at `0` is `1 - exp (-1) > 0`, refuting the claim that the CDF equals
`0` at `t = 0` under both cumulative-hazard strategies. -/
theorem KTR_CDF_logTrick_nonzero_at_zero :
    KTR_CDF_point 0 1 0 (fun _ => 0) true 0 ≠ 0 := by
  have hval : KTR_CDF_point 0 1 0 (fun _ => 0) true 0 = 1 - Real.exp (-1) := by
    unfold KTR_CDF_point
    rw [cum_hazard_logTrick_zero]
    norm_num
  rw [hval]
  have h1 : Real.exp (-1:ℝ) < 1 := by
    rw [Real.exp_lt_one_iff]
    norm_num
  intro h
  linarith

/-- C2 amended: under the direct-quadrature strategy the model CDF
(`1 - exp(-k0 * H(t))`, both KTR and EATR variants) equals `0` at `t = 0`,
is monotone nondecreasing in `t`, and tends to `1` as `t` grows, for every
`k0 > 0` and every continuous bounded spline; under the logTrick strategy
the CDF at `t = 0` is instead strictly positive (its discretized hazard at
`0` is `0.5 * (1 + exp(gamma * spline 0)) > 0`), so the claimed invariants
hold only for the direct-quadrature branch.  The array-level CDFs are the
pointwise CDF mapped over the time array. -/
theorem CDF_invariants (k0 gamma : ℝ) (spline : ℝ → ℝ) (maxs B : ℝ)
    (hk : 0 < k0) (hc : Continuous spline) (hB : ∀ x, |spline x| ≤ B) :
    KTR_CDF_point 0 k0 gamma spline false maxs = 0 ∧
    Monotone (fun t => KTR_CDF_point t k0 gamma spline false maxs) ∧
    Tendsto (fun t => KTR_CDF_point t k0 gamma spline false maxs) atTop (nhds 1) ∧
    EATR_CDF_point 0 k0 gamma spline false maxs = 0 ∧
    Monotone (fun t => EATR_CDF_point t k0 gamma spline false maxs) ∧
    Tendsto (fun t => EATR_CDF_point t k0 gamma spline false maxs) atTop (nhds 1) ∧
    0 < KTR_CDF_point 0 k0 gamma spline true maxs ∧
    0 < EATR_CDF_point 0 k0 gamma spline true maxs ∧
    (∀ t : List ℝ, ∀ logTrick : Bool,
      KTR_CDF t k0 gamma spline logTrick maxs =
        t.map (fun x => KTR_CDF_point x k0 gamma spline logTrick maxs) ∧
      EATR_CDF t k0 gamma spline logTrick maxs =
        t.map (fun x => EATR_CDF_point x k0 gamma spline logTrick maxs)) := by
  have hzero : KTR_CDF_point 0 k0 gamma spline false maxs = 0 := by
    unfold KTR_CDF_point
    rw [cum_hazard_direct_zero]
    simp
  have hpos_logTrick : ∀ g : ℝ,
      0 < KTR_CDF_point 0 k0 g spline true maxs := by
    intro g
    unfold KTR_CDF_point
    rw [cum_hazard_logTrick_zero]
    have hH : 0 < 0.5 * (1 + Real.exp (g * spline 0)) := by
      have := Real.exp_pos (g * spline 0)
      nlinarith
    have : Real.exp (-k0 * (0.5 * (1 + Real.exp (g * spline 0)))) < 1 := by
      rw [Real.exp_lt_one_iff]
      nlinarith
    linarith
  refine ⟨hzero, KTR_CDF_point_mono k0 gamma spline maxs hk.le hc,
    KTR_CDF_point_tendsto k0 gamma spline maxs hk hc B hB, ?_, ?_, ?_,
    hpos_logTrick gamma, ?_, ?_⟩
  · rw [EATR_CDF_point_eq_KTR_one]
    unfold KTR_CDF_point
    rw [cum_hazard_direct_zero]
    simp
  · have heq : (fun t => EATR_CDF_point t k0 gamma spline false maxs) =
        fun t => KTR_CDF_point t k0 1 spline false maxs := by
      funext t
      exact EATR_CDF_point_eq_KTR_one t k0 gamma spline false maxs
    rw [heq]
    exact KTR_CDF_point_mono k0 1 spline maxs hk.le hc
  · have heq : (fun t => EATR_CDF_point t k0 gamma spline false maxs) =
        fun t => KTR_CDF_point t k0 1 spline false maxs := by
      funext t
      exact EATR_CDF_point_eq_KTR_one t k0 gamma spline false maxs
    rw [heq]
    exact KTR_CDF_point_tendsto k0 1 spline maxs hk hc B hB
  · rw [EATR_CDF_point_eq_KTR_one]
    exact hpos_logTrick 1
  · intro t logTrick
    constructor
    · unfold KTR_CDF KTR_CDF_point
      rw [List.map_map]
      rfl
    · unfold EATR_CDF EATR_CDF_point
      rw [List.map_map]
      rfl

/-- Witness for the amended C2 with the zero spline and `k0 = 1`. -/
theorem CDF_invariants_witness :
    (0:ℝ) < 1 ∧
    (KTR_CDF_point 0 1 0 (fun _ => (0:ℝ)) false 0 = 0 ∧
     Monotone (fun t => KTR_CDF_point t 1 0 (fun _ => (0:ℝ)) false 0) ∧
     Tendsto (fun t => KTR_CDF_point t 1 0 (fun _ => (0:ℝ)) false 0) atTop (nhds 1) ∧
     EATR_CDF_point 0 1 0 (fun _ => (0:ℝ)) false 0 = 0 ∧
     Monotone (fun t => EATR_CDF_point t 1 0 (fun _ => (0:ℝ)) false 0) ∧
     Tendsto (fun t => EATR_CDF_point t 1 0 (fun _ => (0:ℝ)) false 0) atTop (nhds 1) ∧
     0 < KTR_CDF_point 0 1 0 (fun _ => (0:ℝ)) true 0 ∧
     0 < EATR_CDF_point 0 1 0 (fun _ => (0:ℝ)) true 0 ∧
     (∀ t : List ℝ, ∀ logTrick : Bool,
       KTR_CDF t 1 0 (fun _ => (0:ℝ)) logTrick 0 =
         t.map (fun x => KTR_CDF_point x 1 0 (fun _ => (0:ℝ)) logTrick 0) ∧
       EATR_CDF t 1 0 (fun _ => (0:ℝ)) logTrick 0 =
         t.map (fun x => EATR_CDF_point x 1 0 (fun _ => (0:ℝ)) logTrick 0))) :=
  ⟨by norm_num,
    CDF_invariants 1 0 (fun _ => (0:ℝ)) 0 0 (by norm_num) continuous_const
      (fun x => by norm_num)⟩

/-- C5 counterexample: at `gamma = 1`, the constant spline `1` and `t = 2`,
the logTrick cumulative hazard differs from the unit-step trapezoidal rule
applied to the same integrand over `[0, 2]`, because the source contributes
the constant `1` where the trapezoid rule has `exp(gamma * spline 0)`. -/
theorem logTrick_not_trapezoid :
    KTR_calculate_cum_hazard 1 (fun _ => 1) true 0 2 ≠
      trapezoidUnit (fun x => Real.exp (1 * (fun _ : ℝ => (1:ℝ)) x)) 2 := by
  have h2 : ((2:ℕ):ℝ) = (2:ℝ) := by norm_num
  rw [← h2, KTR_cum_hazard_logTrick_natCast]
  unfold interiorExpSum trapezoidUnit
  simp only [List.range_succ, List.range_zero, List.nil_append, List.cons_append,
    List.drop_succ_cons, List.drop_nil, List.drop_zero, List.map_nil, List.map_cons,
    List.sum_cons, List.sum_nil, List.map_append, List.sum_append]
  have he : (1:ℝ) < Real.exp 1 := by
    rw [Real.one_lt_exp_iff]
    norm_num
  intro h
  norm_num at h
  linarith

/-- C5 amended: at every integer time `n >= 1` and for every anchor value,
the logTrick branch of the KTR (resp. EATR) cumulative hazard equals, in
exact real arithmetic, the unit-step trapezoidal rule for
`exp(gamma * spline)` (resp. `exp(spline)`) over `[0, n]` plus the
correction `0.5 * (1 - exp(gamma * spline 0))` (resp.
`0.5 * (1 - exp(spline 0))`): the code writes the literal `1` where the
trapezoid rule has the left-endpoint integrand value, so the two agree
exactly when the integrand is `1` at time `0` (e.g. an unbiased start). -/
theorem logTrick_trapezoid_amended (gamma : ℝ) (spline : ℝ → ℝ) (maxs : ℝ)
    (n : ℕ) (hn : 1 ≤ n) :
    KTR_calculate_cum_hazard gamma spline true maxs (n : ℝ) =
      trapezoidUnit (fun x => Real.exp (gamma * spline x)) n
        + 0.5 * (1 - Real.exp (gamma * spline 0)) ∧
    EATR_calculate_cum_hazard gamma spline true maxs (n : ℝ) =
      trapezoidUnit (fun x => Real.exp (spline x)) n
        + 0.5 * (1 - Real.exp (spline 0)) := by
  constructor
  · rw [KTR_cum_hazard_logTrick_natCast]
    have h := logTrick_interior_formula (fun x => gamma * spline x) n hn
    simpa using h
  · rw [EATR_cum_hazard_logTrick_natCast]
    have h := logTrick_interior_formula (fun x => spline x) n hn
    simpa using h

/-- Witness for the amended C5 at `n = 1` with the zero spline. -/
theorem logTrick_trapezoid_amended_witness :
    1 ≤ 1 ∧
    (KTR_calculate_cum_hazard 0 (fun _ => 0) true 0 ((1:ℕ):ℝ) =
      trapezoidUnit (fun _ => Real.exp (0 * 0)) 1 + 0.5 * (1 - Real.exp (0 * 0)) ∧
     EATR_calculate_cum_hazard 0 (fun _ => 0) true 0 ((1:ℕ):ℝ) =
      trapezoidUnit (fun _ => Real.exp 0) 1 + 0.5 * (1 - Real.exp 0)) :=
  ⟨le_refl 1, logTrick_trapezoid_amended 0 (fun _ => 0) 0 1 (le_refl 1)⟩

theorem stepDownK_iterate (k : ℝ) (n : ℕ) :
    stepDownK^[n] k = k * ((10 : ℝ) ^ (-0.02 : ℝ)) ^ n := by
  induction n with
  | zero => simp
  | succ m ih =>
    rw [Function.iterate_succ_apply', ih]
    unfold stepDownK
    rw [pow_succ]
    ring

theorem stepUpK_iterate (k : ℝ) (n : ℕ) :
    stepUpK^[n] k = k * ((10 : ℝ) ^ (0.02 : ℝ)) ^ n := by
  induction n with
  | zero => simp
  | succ m ih =>
    rw [Function.iterate_succ_apply', ih]
    unfold stepUpK
    rw [pow_succ]
    ring

theorem stepDownG_iterate (g : ℝ) (n : ℕ) :
    stepDownG^[n] g = g - 0.02 * n := by
  induction n with
  | zero => simp
  | succ m ih =>
    rw [Function.iterate_succ_apply', ih]
    unfold stepDownG
    push_cast
    ring

theorem stepUpG_iterate (g : ℝ) (n : ℕ) :
    stepUpG^[n] g = g + 0.02 * n := by
  induction n with
  | zero => simp
  | succ m ih =>
    rw [Function.iterate_succ_apply', ih]
    unfold stepUpG
    push_cast
    ring

/-- Characterization of the KS bracket loop: if the p-value oracle passes
the `0.05` threshold at the stepped values `next^[1] cur .. next^[N] cur`
and fails at `next^[N+1] cur`, and the fuel exceeds `N`, then the loop
returns the last passing stepped value, or the incoming `good_fit`
when even the first step fails. -/
theorem ksSearch_spec (pval next : ℝ → ℝ) :
    ∀ fuel N : ℕ, ∀ cur : ℝ, ∀ good_fit : Option ℝ,
      N < fuel →
      pval (next^[N + 1] cur) ≤ 0.05 →
      (∀ m, 1 ≤ m → m ≤ N → 0.05 < pval (next^[m] cur)) →
      ksSearch pval next fuel cur good_fit =
        if N = 0 then good_fit else some (next^[N] cur) := by
  intro fuel
  induction fuel with
  | zero => intro N cur good_fit hN; omega
  | succ f ih =>
    intro N cur good_fit hN hstop hpass
    rcases Nat.eq_zero_or_pos N with h0 | hpos
    · subst h0
      rw [Function.iterate_one] at hstop
      show (if 0.05 < pval (next cur)
        then ksSearch pval next f (next cur) (some (next cur)) else good_fit) = _
      rw [if_neg (by linarith), if_pos rfl]
    · obtain ⟨M, rfl⟩ : ∃ M, N = M + 1 := ⟨N - 1, by omega⟩
      have hfirst : 0.05 < pval (next cur) := by
        have h := hpass 1 (le_refl 1) (by omega)
        rwa [Function.iterate_one] at h
      show (if 0.05 < pval (next cur)
        then ksSearch pval next f (next cur) (some (next cur)) else good_fit) = _
      rw [if_pos hfirst]
      have hih := ih M (next cur) (some (next cur)) (by omega)
        (by rw [← Function.iterate_succ_apply]; exact hstop)
        (by
          intro m hm1 hmM
          have h := hpass (m + 1) (by omega) (by omega)
          rwa [Function.iterate_succ_apply] at h)
      rw [hih]
      rcases Nat.eq_zero_or_pos M with hM0 | hMpos
      · subst hM0
        rw [if_pos rfl, if_neg (by omega), Function.iterate_one]
      · rw [if_neg (by omega), if_neg (by omega), ← Function.iterate_succ_apply]

/-! ### Claim theorems for C4, C6, C7 -/

/-- C4: on the default non-Bayesian path, `KTR_MLE_rate` and
`EATR_MLE_rate` obtain gamma by bounded scalar minimization of the
negative profile log-likelihood over the caller-specified `gamma_bounds`
(so, by the bounded minimizer contract, the returned gamma lies inside
those bounds) and return the rate `k0 = M / (sum of cumulative hazards
evaluated at the optimal gamma)`, `M` being the number of transitioned
replicas. -/
theorem MLE_rate_spec (splineOracle : List (ℝ × ℝ) → ℝ → ℝ)
    (avgAccOracle : ℝ → ℝ → ℝ)
    (minimizeScalar : (ℝ → ℝ) → ℝ × ℝ → ℝ) (maxs : ℝ)
    (vmb_average : List (ℝ × ℝ)) (t : List ℝ) (event : List Bool)
    (gamma_bounds : ℝ × ℝ) (logTrick : Bool) (reg_lambda : ℝ)
    (hM : 1 ≤ countTrue event)
    (hb : gamma_bounds.1 ≤ gamma_bounds.2)
    (hopt : ∀ f : ℝ → ℝ, ∀ b : ℝ × ℝ, b.1 ≤ b.2 →
      b.1 ≤ minimizeScalar f b ∧ minimizeScalar f b ≤ b.2) :
    (gamma_bounds.1 ≤ (KTR_MLE_rate splineOracle minimizeScalar maxs
        vmb_average t event gamma_bounds logTrick reg_lambda).1.2 ∧
      (KTR_MLE_rate splineOracle minimizeScalar maxs
        vmb_average t event gamma_bounds logTrick reg_lambda).1.2 ≤
        gamma_bounds.2) ∧
    (KTR_MLE_rate splineOracle minimizeScalar maxs
        vmb_average t event gamma_bounds logTrick reg_lambda).1.1 =
      (countTrue event : ℝ) /
        (t.map (KTR_calculate_cum_hazard
          (KTR_MLE_rate splineOracle minimizeScalar maxs
            vmb_average t event gamma_bounds logTrick reg_lambda).1.2
          (splineOracle vmb_average) logTrick maxs)).sum ∧
    (gamma_bounds.1 ≤ (EATR_MLE_rate avgAccOracle minimizeScalar maxs
        t event gamma_bounds logTrick reg_lambda).1.2 ∧
      (EATR_MLE_rate avgAccOracle minimizeScalar maxs
        t event gamma_bounds logTrick reg_lambda).1.2 ≤ gamma_bounds.2) ∧
    (EATR_MLE_rate avgAccOracle minimizeScalar maxs
        t event gamma_bounds logTrick reg_lambda).1.1 =
      (countTrue event : ℝ) /
        (t.map (EATR_calculate_cum_hazard
          (EATR_MLE_rate avgAccOracle minimizeScalar maxs
            t event gamma_bounds logTrick reg_lambda).1.2
          (avgAccOracle (EATR_MLE_rate avgAccOracle minimizeScalar maxs
            t event gamma_bounds logTrick reg_lambda).1.2)
          logTrick maxs)).sum := by
  obtain ⟨h1, h2⟩ := hopt
    (fun g => KTR_calculate_log_l g event t (splineOracle vmb_average)
      logTrick maxs reg_lambda) gamma_bounds hb
  obtain ⟨h3, h4⟩ := hopt
    (fun g => EATR_calculate_log_l g event t (avgAccOracle g)
      logTrick maxs reg_lambda) gamma_bounds hb
  refine ⟨⟨h1, h2⟩, ?_, ⟨h3, h4⟩, ?_⟩
  · show (1 : ℝ) / (_ / (countTrue event : ℝ)) = _
    rw [one_div_div]
    rfl
  · show (1 : ℝ) / (_ / (countTrue event : ℝ)) = _
    rw [one_div_div]
    rfl

/-- Witness for C4 with trivial concrete oracles: the minimizer returning
the lower bound satisfies the bounded-minimizer contract. -/
theorem MLE_rate_spec_witness :
    ((((0:ℝ),(1:ℝ)).1 ≤ (KTR_MLE_rate (fun _ _ => 0) (fun _ b => b.1) 0
        [] [] [true] ((0:ℝ),(1:ℝ)) false 0).1.2 ∧
      (KTR_MLE_rate (fun _ _ => 0) (fun _ b => b.1) 0
        [] [] [true] ((0:ℝ),(1:ℝ)) false 0).1.2 ≤ ((0:ℝ),(1:ℝ)).2) ∧
    (KTR_MLE_rate (fun _ _ => 0) (fun _ b => b.1) 0
        [] [] [true] ((0:ℝ),(1:ℝ)) false 0).1.1 =
      (countTrue [true] : ℝ) /
        (([] : List ℝ).map (KTR_calculate_cum_hazard
          (KTR_MLE_rate (fun _ _ => 0) (fun _ b => b.1) 0
            [] [] [true] ((0:ℝ),(1:ℝ)) false 0).1.2
          ((fun _ _ => (0:ℝ)) ([] : List (ℝ × ℝ))) false 0)).sum ∧
    (((0:ℝ),(1:ℝ)).1 ≤ (EATR_MLE_rate (fun _ _ => 0) (fun _ b => b.1) 0
        [] [true] ((0:ℝ),(1:ℝ)) false 0).1.2 ∧
      (EATR_MLE_rate (fun _ _ => 0) (fun _ b => b.1) 0
        [] [true] ((0:ℝ),(1:ℝ)) false 0).1.2 ≤ ((0:ℝ),(1:ℝ)).2) ∧
    (EATR_MLE_rate (fun _ _ => 0) (fun _ b => b.1) 0
        [] [true] ((0:ℝ),(1:ℝ)) false 0).1.1 =
      (countTrue [true] : ℝ) /
        (([] : List ℝ).map (EATR_calculate_cum_hazard
          (EATR_MLE_rate (fun _ _ => 0) (fun _ b => b.1) 0
            [] [true] ((0:ℝ),(1:ℝ)) false 0).1.2
          ((fun _ _ => (0:ℝ))
            (EATR_MLE_rate (fun _ _ => 0) (fun _ b => b.1) 0
              [] [true] ((0:ℝ),(1:ℝ)) false 0).1.2)
          false 0)).sum) :=
  MLE_rate_spec (fun _ _ => 0) (fun _ _ => 0) (fun _ b => b.1) 0 [] [] [true]
    ((0:ℝ),(1:ℝ)) false 0 (by decide) (by norm_num)
    (fun f b h => ⟨le_refl b.1, h⟩)

/-- C6: the KS consistency-bracket search perturbs its parameter along a
strictly monotonic sequence of fixed steps (multiplicative `10^(-0.02)` or
`10^(0.02)` for `k0`, additive `-0.02` or `+0.02` for gamma), continues
only while the KS p-value oracle stays above `0.05`, and reports the last
perturbed value at which `p` exceeded `0.05`, falling back to the point
estimate when no perturbed step passed (the oracle `pval` abstracts the
stochastic `ks_2samp`-based p-value as a function of the tried value). -/
theorem ks_bracket_spec (pval next : ℝ → ℝ) (k g : ℝ) (hk : 0 < k) :
    StrictAnti (fun n : ℕ => stepDownK^[n] k) ∧
    StrictMono (fun n : ℕ => stepUpK^[n] k) ∧
    StrictAnti (fun n : ℕ => stepDownG^[n] g) ∧
    StrictMono (fun n : ℕ => stepUpG^[n] g) ∧
    (∀ fuel N : ℕ, N < fuel →
      pval (next^[N + 1] k) ≤ 0.05 →
      (∀ m, 1 ≤ m → m ≤ N → 0.05 < pval (next^[m] k)) →
      ksBracketResult pval next fuel k =
        if N = 0 then k else next^[N] k) := by
  have hc0 : (0:ℝ) < (10 : ℝ) ^ (-0.02 : ℝ) :=
    Real.rpow_pos_of_pos (by norm_num) _
  have hc1 : (10 : ℝ) ^ (-0.02 : ℝ) < 1 :=
    Real.rpow_lt_one_of_one_lt_of_neg (by norm_num) (by norm_num)
  have hd1 : (1:ℝ) < (10 : ℝ) ^ (0.02 : ℝ) :=
    (Real.one_lt_rpow_iff_of_pos (by norm_num)).mpr
      (Or.inl ⟨by norm_num, by norm_num⟩)
  refine ⟨?_, ?_, ?_, ?_, ?_⟩
  · intro a b hab
    show stepDownK^[b] k < stepDownK^[a] k
    rw [stepDownK_iterate, stepDownK_iterate]
    exact mul_lt_mul_of_pos_left (pow_lt_pow_right_of_lt_one₀ hc0 hc1 hab) hk
  · intro a b hab
    show stepUpK^[a] k < stepUpK^[b] k
    rw [stepUpK_iterate, stepUpK_iterate]
    exact mul_lt_mul_of_pos_left (pow_lt_pow_right₀ hd1 hab) hk
  · intro a b hab
    show stepDownG^[b] g < stepDownG^[a] g
    rw [stepDownG_iterate, stepDownG_iterate]
    have : (a : ℝ) < (b : ℝ) := Nat.cast_lt.mpr hab
    linarith
  · intro a b hab
    show stepUpG^[a] g < stepUpG^[b] g
    rw [stepUpG_iterate, stepUpG_iterate]
    have : (a : ℝ) < (b : ℝ) := Nat.cast_lt.mpr hab
    linarith
  · intro fuel N hN hstop hpass
    unfold ksBracketResult
    rw [ksSearch_spec pval next fuel N k none hN hstop hpass]
    rcases Nat.eq_zero_or_pos N with h0 | hpos
    · subst h0
      rw [if_pos rfl, if_pos rfl]
      rfl
    · rw [if_neg (by omega), if_neg (by omega)]
      rfl

/-- Witness for C6 with a p-value oracle that fails immediately, so the
search falls back to the point estimate. -/
theorem ks_bracket_spec_witness :
    (0:ℝ) < 1 ∧
    (StrictAnti (fun n : ℕ => stepDownK^[n] (1:ℝ)) ∧
     StrictMono (fun n : ℕ => stepUpK^[n] (1:ℝ)) ∧
     StrictAnti (fun n : ℕ => stepDownG^[n] (0:ℝ)) ∧
     StrictMono (fun n : ℕ => stepUpG^[n] (0:ℝ)) ∧
     (∀ fuel N : ℕ, N < fuel →
       (fun _ : ℝ => (0:ℝ)) (id^[N + 1] (1:ℝ)) ≤ 0.05 →
       (∀ m, 1 ≤ m → m ≤ N → 0.05 < (fun _ : ℝ => (0:ℝ)) (id^[m] (1:ℝ))) →
       ksBracketResult (fun _ : ℝ => (0:ℝ)) id fuel 1 =
         if N = 0 then 1 else id^[N] (1:ℝ))) :=
  ⟨by norm_num, ks_bracket_spec (fun _ => 0) id 1 0 (by norm_num)⟩

/-- C7 counterexample: on a degenerate ensemble in which no replica
reaches the stated maximum row count, `inst_bias` does not fail: it
returns a result whose time axis `ix_col` is undefined (`none`), deferring
the failure to the downstream spline construction.  This refutes the
claim that `inst_bias` fails with a DataError on such input. -/
theorem inst_bias_returns_none_axis :
    inst_bias [[((0:ℝ), (5:ℝ)), (1, 6)]] 1 3 1 0 ≠ none := by
  unfold inst_bias
  norm_num [lastFullTimeCol]
  exact Option.some_ne_none _

/-- C7 amended: on an ensemble in which no replica reaches the given
maximum row count, `avg_max_bias` fails (the numpy `vstack` with the
undefined `ix_col = None` raises), but `inst_bias` returns normally with
`ix_col = none`, leaving the failure to its caller. -/
theorem degenerate_ensemble_no_full_replica (maxbias : List (List ℝ))
    (data : List (List (ℝ × ℝ))) (colvars_count maxrow : ℕ)
    (beta bias_shift : ℝ)
    (hnone : ∀ d ∈ data.take colvars_count, d.length ≠ maxrow)
    (hshort : ∀ d ∈ data.take colvars_count, d.length ≤ maxrow)
    (hmb : ∀ c ∈ maxbias.take colvars_count, c.length ≤ maxrow) :
    avg_max_bias maxbias data colvars_count maxrow beta bias_shift = none ∧
    inst_bias data colvars_count maxrow beta bias_shift =
      some ((data.take colvars_count).map (fun d =>
          padWithNone (d.map (fun r => r.2 + bias_shift)) maxrow), none) := by
  have hlast : lastFullTimeCol (data.take colvars_count) maxrow = none := by
    unfold lastFullTimeCol
    rw [List.getLast?_eq_none_iff]
    rw [List.filter_eq_nil_iff]
    intro c hc
    simp only [List.mem_map] at hc
    obtain ⟨d, hd, rfl⟩ := hc
    simpa using hnone d hd
  constructor
  · unfold avg_max_bias
    rcases hif : maxbias.take colvars_count |>.any
        (fun c => decide (maxrow < c.length)) with _ | _
    · rw [if_neg (by rw [hif]; exact Bool.false_ne_true), hlast]
    · rw [if_pos (by rw [hif])]
  · unfold inst_bias
    rw [if_neg ?_, hlast]
    rw [Bool.not_eq_true, List.any_eq_false]
    intro d hd
    simpa using Nat.not_lt.mpr (hshort d hd)

/-- Witness for the amended C7: one replica of two rows against a stated
maximum of three. -/
theorem degenerate_ensemble_no_full_replica_witness :
    avg_max_bias [[(5:ℝ), 6]] [[((0:ℝ), (5:ℝ)), (1, 6)]] 1 3 1 0 = none ∧
    inst_bias [[((0:ℝ), (5:ℝ)), (1, 6)]] 1 3 1 0 =
      some (([[((0:ℝ), (5:ℝ)), (1, 6)]].take 1).map (fun d =>
          padWithNone (d.map (fun r => r.2 + 0)) 3), none) :=
  degenerate_ensemble_no_full_replica [[(5:ℝ), 6]] [[((0:ℝ), (5:ℝ)), (1, 6)]] 1 3 1 0
    (by intro d hd; simp at hd; subst hd; simp)
    (by intro d hd; simp at hd; subst hd; simp)
    (by intro c hc; simp at hc; subst hc; simp)

end SPIB
